import Mathlib

/-!
Shallow embedding of the LuminaJournal audio/import/selection logic.

JS numbers that hold integer values within the float-exact range are
embedded as `Int`; byte buffers (`Uint8Array`, `ArrayBuffer` contents,
the characters of `atob`'s binary string) as `List Nat` with entries
below 256; strings as `List Char` or `String`; a JS function that can
throw is embedded as an `Option`- or `Except`-valued function.
-/

namespace Lumina

/-! ## JS numeric conversions used by `DataView`

`DataView.setUint16`/`setUint32` convert their argument with the
ECMAScript `ToUint16`/`ToUint32` operations: truncate toward zero, then
reduce modulo 2^16 / 2^32 to a non-negative representative.  On `Int`
the truncation is the identity, and Lean's `Int` `%` (`Int.emod`)
returns the non-negative representative. -/

/-- ECMAScript `ToUint16` on an integer-valued number. -/
def toUint16 (x : Int) : Nat := (x % 65536).toNat

/-- ECMAScript `ToUint32` on an integer-valued number. -/
def toUint32 (x : Int) : Nat := (x % 4294967296).toNat

/-- The two bytes written by `DataView.setUint16(off, x, true)`
(little-endian). -/
def u16le (x : Int) : List Nat := [toUint16 x % 256, toUint16 x / 256]

/-- The four bytes written by `DataView.setUint32(off, x, true)`
(little-endian). -/
def u32le (x : Int) : List Nat :=
  [toUint32 x % 256, toUint32 x / 256 % 256,
   toUint32 x / 65536 % 256, toUint32 x / 16777216]

/-! ## `createWavHeader` (src/unnamed/part_002, lines 11-43)

The source allocates a 44-byte `ArrayBuffer` and writes every offset
0..43 exactly once, in offset order, so the buffer equals the
concatenation of the written fields.  `writeString` stores the ASCII
code of each character (`'RIFF'` ↦ 82,73,70,70; `'WAVE'` ↦ 87,65,86,69;
`'fmt '` ↦ 102,109,116,32; `'data'` ↦ 100,97,116,97).

The byte-rate expression `sampleRate * numChannels * (bitsPerSample / 8)`
and the block-align expression `numChannels * (bitsPerSample / 8)` are
evaluated by JS in binary floating point: division by 8 is exact there,
and the subsequent `ToUint32`/`ToUint16` truncates toward zero, so
within the float-exact range the stored integer is the
truncated-toward-zero quotient `Int.tdiv (… * bitsPerSample) 8`. -/

/-- The 44 header bytes produced by `createWavHeader`. -/
def createWavHeader (dataLength sampleRate numChannels bitsPerSample : Int) :
    List Nat :=
  [82, 73, 70, 70]                                             -- 'RIFF'
  ++ u32le (36 + dataLength)                                   -- RIFF chunk length
  ++ [87, 65, 86, 69]                                          -- 'WAVE'
  ++ [102, 109, 116, 32]                                       -- 'fmt '
  ++ u32le 16                                                  -- fmt chunk length
  ++ u16le 1                                                   -- sample format (PCM)
  ++ u16le numChannels                                         -- channel count
  ++ u32le sampleRate                                          -- sample rate
  ++ u32le (Int.tdiv (sampleRate * numChannels * bitsPerSample) 8)  -- byte rate
  ++ u16le (Int.tdiv (numChannels * bitsPerSample) 8)          -- block align
  ++ u16le bitsPerSample                                       -- bits per sample
  ++ [100, 97, 116, 97]                                        -- 'data'
  ++ u32le dataLength                                          -- data chunk length

/-- The bytes of the `Blob([header, pcmData])` assembled by
`pcmToWavBlob` (src/unnamed/part_002, line 54), generalized over the
parameters handed to `createWavHeader`; `pcmToWavBlob` itself uses
`numChannels = 1`, `bitsPerSample = 16`. -/
def encodeWav (pcm : List Nat) (sampleRate numChannels bitsPerSample : Int) :
    List Nat :=
  createWavHeader (pcm.length : Int) sampleRate numChannels bitsPerSample ++ pcm

/-- Little-endian 16-bit read at a byte offset (observation used to state
field correctness). -/
def readU16 (bs : List Nat) (off : Nat) : Nat :=
  bs.getD off 0 + 256 * bs.getD (off + 1) 0

/-- Little-endian 32-bit read at a byte offset (observation used to state
field correctness). -/
def readU32 (bs : List Nat) (off : Nat) : Nat :=
  bs.getD off 0 + 256 * bs.getD (off + 1) 0
    + 65536 * bs.getD (off + 2) 0 + 16777216 * bs.getD (off + 3) 0

example : readU32 (createWavHeader 4 24000 1 16) 24 = 24000 := by decide
example : readU32 (createWavHeader 4 24000 1 16) 28 = 48000 := by decide
example : readU16 (createWavHeader 4 24000 1 16) 32 = 2 := by decide
example : readU32 (createWavHeader 4 24000 1 16) 40 = 4 := by decide
example : readU16 (createWavHeader 0 24000 65537 16) 22 = 1 := by decide
example : (createWavHeader 0 0 0 0).length = 44 := by decide

/-! ## `base64ToUint8Array` (src/unnamed/part_002, lines 1-9)

The source calls the platform builtin `atob`, whose behavior is the
WHATWG HTML "forgiving-base64 decode" algorithm:
 1. remove all ASCII whitespace (tab, LF, FF, CR, space);
 2. if the remaining length is a multiple of 4, remove one or two
    trailing `=` characters if present;
 3. fail (`InvalidCharacterError`) if the remaining length is ≡ 1 mod 4;
 4. fail if any remaining character is outside the base64 alphabet
    `A-Z a-z 0-9 + /` (in particular any remaining `=`);
 5. otherwise emit 3 bytes per 4 sextets, with a final group of 2 or 3
    sextets contributing 1 or 2 bytes (low leftover bits discarded).
The surrounding loop `bytes[i] = binaryString.charCodeAt(i)` copies the
decoded bytes unchanged, so the function is the decode itself; a thrown
`InvalidCharacterError` is embedded as `none`. -/

/-- ASCII whitespace as stripped by forgiving-base64 decode. -/
def isB64Ws (c : Char) : Bool :=
  c = '\t' || c = '\n' || c = '\x0c' || c = '\r' || c = ' '

/-- The 6-bit value of a standard base64 alphabet character,
`none` outside the alphabet (`=` included). -/
def sextetOf (c : Char) : Option Nat :=
  if 'A' ≤ c ∧ c ≤ 'Z' then some (c.toNat - 65)
  else if 'a' ≤ c ∧ c ≤ 'z' then some (c.toNat - 97 + 26)
  else if '0' ≤ c ∧ c ≤ '9' then some (c.toNat - 48 + 52)
  else if c = '+' then some 62
  else if c = '/' then some 63
  else none

/-- Sextet values of a character list; `none` if any character is
outside the alphabet. -/
def sextetsOf : List Char → Option (List Nat)
  | [] => some []
  | c :: cs =>
    match sextetOf c, sextetsOf cs with
    | some v, some vs => some (v :: vs)
    | _, _ => none

/-- Step 2 of forgiving-base64 decode: when the length is a multiple of
4, drop one or two trailing `=` characters. -/
def stripPad (d : List Char) : List Char :=
  if d.length % 4 = 0 then
    match d.reverse with
    | '=' :: '=' :: r => r.reverse
    | '=' :: r => r.reverse
    | _ => d
  else d

/-- Bytes produced from the sextet stream: 4 sextets ↦ 3 bytes, a final
group of 2 ↦ 1 byte, of 3 ↦ 2 bytes; a leftover single sextet is a
failure (it can only arise from a length ≡ 1 mod 4). -/
def decodeGroups : List Nat → Option (List Nat)
  | [] => some []
  | [_] => none
  | [a, b] => some [a * 4 + b / 16]
  | [a, b, c] => some [a * 4 + b / 16, b % 16 * 16 + c / 4]
  | a :: b :: c :: d :: rest =>
    match decodeGroups rest with
    | some t =>
      some ((a * 4 + b / 16) :: (b % 16 * 16 + c / 4) :: (c % 4 * 64 + d) :: t)
    | none => none

/-- `atob(s)` per WHATWG forgiving-base64 decode; `none` embeds the
thrown `InvalidCharacterError`. -/
def atobChars (s : List Char) : Option (List Nat) :=
  let d := stripPad (s.filter (fun c => !isB64Ws c))
  if d.length % 4 = 1 then none
  else
    match sextetsOf d with
    | some vs => decodeGroups vs
    | none => none

/-- `base64ToUint8Array`: `atob` followed by a byte-for-byte copy of the
binary string's character codes. -/
def base64ToUint8Array (base64 : String) : Option (List Nat) :=
  atobChars base64.toList

/-- `pcmToWavBlob` (src/unnamed/part_002, lines 51-55): decode the
base64 payload, then prepend a header with 1 channel and 16 bits per
sample.  `none` embeds the exception propagating out of `atob`. -/
def pcmToWavBlob (base64Data : String) (sampleRate : Int) :
    Option (List Nat) :=
  match base64ToUint8Array base64Data with
  | none => none
  | some pcmData => some (encodeWav pcmData sampleRate 1 16)

example : base64ToUint8Array "AQIDBA==" = some [1, 2, 3, 4] := by decide
example : base64ToUint8Array "AQIDBA" = some [1, 2, 3, 4] := by decide
example : base64ToUint8Array "TWFu" = some [77, 97, 110] := by decide
example : base64ToUint8Array "TWE=" = some [77, 97] := by decide
example : base64ToUint8Array "TQ==" = some [77] := by decide
example : base64ToUint8Array "" = some [] := by decide
example : base64ToUint8Array " " = some [] := by decide
example : base64ToUint8Array "T Q = =" = some [77] := by decide
example : base64ToUint8Array "TQ=" = none := by decide
example : base64ToUint8Array "A" = none := by decide
example : base64ToUint8Array "A&==" = none := by decide
example : base64ToUint8Array "A===" = none := by decide

/-! ## Standard base64 reference encoder (spec side)

The spec's round-trip property is stated against "the standard base64
reference encoder used only for test fixture construction" (RFC 4648,
standard alphabet, `=` padding).  This definition follows the spec's
words; it is compared with the decoder embedded from the source. -/

/-- The standard base64 alphabet, index 0..63. -/
def b64alphabet : List Char :=
  "ABCDEFGHIJKLMNOPQRSTUVWXYZabcdefghijklmnopqrstuvwxyz0123456789+/".toList

/-- Alphabet character for a sextet value. -/
def b64char (n : Nat) : Char := b64alphabet.getD n 'A'

/-- RFC 4648 standard base64 encoding of a byte sequence: 3 bytes ↦ 4
characters; a final byte ↦ 2 characters + `==`; two final bytes ↦ 3
characters + `=`. -/
def encodeBase64Std : List Nat → List Char
  | [] => []
  | [x] => [b64char (x / 4), b64char (x % 4 * 16), '=', '=']
  | [x, y] =>
    [b64char (x / 4), b64char (x % 4 * 16 + y / 16), b64char (y % 16 * 4), '=']
  | x :: y :: z :: rest =>
    b64char (x / 4) :: b64char (x % 4 * 16 + y / 16)
      :: b64char (y % 16 * 4 + z / 64) :: b64char (z % 64)
      :: encodeBase64Std rest

example : encodeBase64Std [77, 97, 110] = "TWFu".toList := by decide
example : encodeBase64Std [1, 2, 3, 4] = "AQIDBA==".toList := by decide

/-- The character class named by the spec's error condition:
`[A-Za-z0-9+/=]`. -/
def isB64AlphabetChar (c : Char) : Bool :=
  ('A' ≤ c && c ≤ 'Z') || ('a' ≤ c && c ≤ 'z') || ('0' ≤ c && c ≤ '9')
    || c = '+' || c = '/' || c = '='

/-- The unpadded sextet stream of the standard encoding of a byte
sequence (proof helper relating `encodeBase64Std` to `decodeGroups`). -/
def encSextets : List Nat → List Nat
  | [] => []
  | [x] => [x / 4, x % 4 * 16]
  | [x, y] => [x / 4, x % 4 * 16 + y / 16, y % 16 * 4]
  | x :: y :: z :: rest =>
    x / 4 :: (x % 4 * 16 + y / 16) :: (y % 16 * 4 + z / 64) :: z % 64
      :: encSextets rest

/-- The padding suffix of the standard encoding (proof helper). -/
def padOf : List Nat → List Char
  | [] => []
  | [_] => ['=', '=']
  | [_, _] => ['=']
  | _ :: _ :: _ :: rest => padOf rest

/-! ## Remote text-analysis response handling
(src/services/geminiService.ts)

The claims about the service layer concern only the pure handling of
the provider's `response.text` — a value of type `string | undefined`,
embedded as `Option String` — after the awaited network call.  JS
truthiness `!text` is true exactly for `undefined` and the empty
string.  A thrown `Error` is embedded as `Except.error`; the argument
of a successful `JSON.parse(text)` is returned unparsed, since the
claims do not concern the parse itself. -/

/-- The error thrown by the response handlers. -/
inductive GenError where
  | noResponse : GenError
deriving DecidableEq

/-- `analyzeJournalForVideo`, lines 39-41: `if (!text) throw new
Error("No response from Gemini"); return JSON.parse(text);`. -/
def analyzeJournalForVideoOnText (text : Option String) :
    Except GenError String :=
  match text with
  | none => .error .noResponse
  | some t => if t = "" then .error .noResponse else .ok t

/-- `analyzeLifeProfile`, lines 86-88: identical handling of the
response text. -/
def analyzeLifeProfileOnText (text : Option String) :
    Except GenError String :=
  match text with
  | none => .error .noResponse
  | some t => if t = "" then .error .noResponse else .ok t

/-- `suggestTags`, lines 224-225: `return text ? JSON.parse(text) : []`.
`Except.ok none` embeds returning the default empty tag list,
`Except.ok (some t)` returning `JSON.parse(t)`. -/
def suggestTagsOnText (text : Option String) :
    Except GenError (Option String) :=
  match text with
  | none => .ok none
  | some t => if t = "" then .ok none else .ok (some t)

/-- `generateCinematicMemory`, lines 97-98: `const cleanPrompt =
prompt.length > 400 ? prompt.substring(0, 400) : prompt;` — the prompt
actually sent to the video provider. -/
def cleanVeoPrompt (prompt : List Char) : List Char :=
  if prompt.length > 400 then prompt.take 400 else prompt

/-! ## Import normalization (src/unnamed/part_002, lines 145-152)

`handleImport` maps each raw imported object to an entry; its `images`
field is `raw.photos ? raw.photos.map(p => typeof p === 'string' ? p :
'') : []`.  A JSON value is embedded as `JVal`; the claim concerns the
case where the `photos` field is present and is a list (`some ps`),
`none` covering an absent or falsy `photos` field.  The generated `id`
(random UUID) and the clock-dependent date fallback are outside the
pure fragment and not needed by the claim. -/

/-- A JSON scalar value as found inside an imported `photos` list. -/
inductive JVal where
  | jstr : String → JVal
  | jnum : Int → JVal
  | jbool : Bool → JVal
  | jnull : JVal
deriving DecidableEq

/-- `typeof p === 'string' ? p : ''` applied to one photo value. -/
def photoToImage : JVal → String
  | .jstr s => s
  | _ => ""

/-- The `images` field computed by `handleImport` for one raw entry. -/
def importImages (photos : Option (List JVal)) : List String :=
  match photos with
  | some ps => ps.map photoToImage
  | none => []

/-- The string-valued elements of a photos list, in order — what the
claim says the `images` list consists of. -/
def stringPhotos (ps : List JVal) : List String :=
  ps.filterMap (fun p => match p with | .jstr s => some s | _ => none)

/-- Whether a photo value is a string (`typeof p === 'string'`). -/
def isStringPhoto : JVal → Bool
  | .jstr _ => true
  | _ => false

/-! ## Selection toggling (src/unnamed/part_002, lines 164-170)

`toggleSelection` computes the next `selectedIds` from the current one:
`includes` then `filter(sid => sid !== id)`, else append.  JS `===` on
strings is string equality. -/

/-- The new `selectedIds` list after toggling `id`. -/
def toggleSelection (id : String) (selectedIds : List String) :
    List String :=
  if selectedIds.contains id then
    selectedIds.filter (fun sid => sid ≠ id)
  else
    selectedIds ++ [id]

example : toggleSelection "b" ["a", "b", "c"] = ["a", "c"] := by decide
example : toggleSelection "d" ["a", "b"] = ["a", "b", "d"] := by decide

/-! ## Shared helper lemmas -/

theorem createWavHeader_length (d sr ch bits : Int) :
    (createWavHeader d sr ch bits).length = 44 := by
  simp [createWavHeader, u32le, u16le]

theorem toUint16_lt (x : Int) : toUint16 x < 65536 := by
  unfold toUint16
  omega

theorem toUint32_lt (x : Int) : toUint32 x < 4294967296 := by
  unfold toUint32
  omega

theorem toUint16_of_lt {x : Int} (h0 : 0 ≤ x) (h1 : x < 65536) :
    toUint16 x = x.toNat := by
  unfold toUint16
  rw [Int.emod_eq_of_lt h0 h1]

theorem toUint32_of_lt {x : Int} (h0 : 0 ≤ x) (h1 : x < 4294967296) :
    toUint32 x = x.toNat := by
  unfold toUint32
  rw [Int.emod_eq_of_lt h0 h1]

theorem wav_magic (d sr ch bits : Int) :
    let h := createWavHeader d sr ch bits
    (h.getD 0 0 = 82 ∧ h.getD 1 0 = 73 ∧ h.getD 2 0 = 70 ∧ h.getD 3 0 = 70)
    ∧ (h.getD 8 0 = 87 ∧ h.getD 9 0 = 65 ∧ h.getD 10 0 = 86
        ∧ h.getD 11 0 = 69)
    ∧ (h.getD 12 0 = 102 ∧ h.getD 13 0 = 109 ∧ h.getD 14 0 = 116
        ∧ h.getD 15 0 = 32)
    ∧ (h.getD 36 0 = 100 ∧ h.getD 37 0 = 97 ∧ h.getD 38 0 = 116
        ∧ h.getD 39 0 = 97) := by
  simp [createWavHeader, u32le, u16le, List.getD]

theorem wav_riffSize (d sr ch bits : Int) :
    readU32 (createWavHeader d sr ch bits) 4 = toUint32 (36 + d) := by
  have := toUint32_lt (36 + d)
  simp [readU32, createWavHeader, u32le, u16le, List.getD]
  omega

theorem wav_fmtSize (d sr ch bits : Int) :
    readU32 (createWavHeader d sr ch bits) 16 = 16 := by
  simp [readU32, createWavHeader, u32le, u16le, List.getD, toUint32]

theorem wav_audioFormat (d sr ch bits : Int) :
    readU16 (createWavHeader d sr ch bits) 20 = 1 := by
  simp [readU16, createWavHeader, u32le, u16le, List.getD, toUint16]

theorem wav_channels (d sr ch bits : Int) :
    readU16 (createWavHeader d sr ch bits) 22 = toUint16 ch := by
  have := toUint16_lt ch
  simp [readU16, createWavHeader, u32le, u16le, List.getD]
  omega

theorem wav_sampleRate (d sr ch bits : Int) :
    readU32 (createWavHeader d sr ch bits) 24 = toUint32 sr := by
  have := toUint32_lt sr
  simp [readU32, createWavHeader, u32le, u16le, List.getD]
  omega

theorem wav_byteRate (d sr ch bits : Int) :
    readU32 (createWavHeader d sr ch bits) 28 =
      toUint32 (Int.tdiv (sr * ch * bits) 8) := by
  have := toUint32_lt (Int.tdiv (sr * ch * bits) 8)
  simp [readU32, createWavHeader, u32le, u16le, List.getD]
  omega

theorem wav_blockAlign (d sr ch bits : Int) :
    readU16 (createWavHeader d sr ch bits) 32 =
      toUint16 (Int.tdiv (ch * bits) 8) := by
  have := toUint16_lt (Int.tdiv (ch * bits) 8)
  simp [readU16, createWavHeader, u32le, u16le, List.getD]
  omega

theorem wav_bitsPerSample (d sr ch bits : Int) :
    readU16 (createWavHeader d sr ch bits) 34 = toUint16 bits := by
  have := toUint16_lt bits
  simp [readU16, createWavHeader, u32le, u16le, List.getD]
  omega

theorem wav_dataSize (d sr ch bits : Int) :
    readU32 (createWavHeader d sr ch bits) 40 = toUint32 d := by
  have := toUint32_lt d
  simp [readU32, createWavHeader, u32le, u16le, List.getD]
  omega

/-! ## Claim C1 -/

/-- C1 counterexample: the claim asserts the channel-count field at
offset 22 equals `channelCount` for *every* channel count, but
`setUint16` wraps modulo 2^16, so `channelCount = 65537` is stored
as 1. -/
theorem c1_counterexample :
    readU16 (createWavHeader 4 24000 65537 16) 22 = 1 ∧ (1 : Nat) ≠ 65537 := by
  constructor
  · decide
  · decide

/-- C1 (amended): the header has the specified layout — magic strings
unconditionally, and each little-endian numeric field equal to its
specified value whenever that value is non-negative, fits the field's
16- or 32-bit width, and `bitsPerSample` is a multiple of 8 (so that
`bits/8` and the derived byte-rate and block-align values are exact
integers). -/
theorem c1_header_layout (d sr ch bits : Int) (h : List Nat)
    (hh : h = createWavHeader d sr ch bits)
    (hd0 : 0 ≤ d) (hd1 : 36 + d < 4294967296)
    (hsr0 : 0 ≤ sr) (hsr1 : sr < 4294967296)
    (hch0 : 0 ≤ ch) (hch1 : ch < 65536)
    (hb0 : 0 ≤ bits) (hb1 : bits < 65536) (hb8 : 8 ∣ bits)
    (hbr : sr * ch * (bits / 8) < 4294967296)
    (hba : ch * (bits / 8) < 65536) :
    (h.getD 0 0 = 82 ∧ h.getD 1 0 = 73 ∧ h.getD 2 0 = 70 ∧ h.getD 3 0 = 70)
    ∧ (h.getD 8 0 = 87 ∧ h.getD 9 0 = 65 ∧ h.getD 10 0 = 86
        ∧ h.getD 11 0 = 69)
    ∧ (h.getD 12 0 = 102 ∧ h.getD 13 0 = 109 ∧ h.getD 14 0 = 116
        ∧ h.getD 15 0 = 32)
    ∧ (h.getD 36 0 = 100 ∧ h.getD 37 0 = 97 ∧ h.getD 38 0 = 116
        ∧ h.getD 39 0 = 97)
    ∧ readU32 h 4 = (36 + d).toNat
    ∧ readU32 h 16 = 16
    ∧ readU16 h 20 = 1
    ∧ readU16 h 22 = ch.toNat
    ∧ readU32 h 24 = sr.toNat
    ∧ readU32 h 28 = (sr * ch * (bits / 8)).toNat
    ∧ readU16 h 32 = (ch * (bits / 8)).toNat
    ∧ readU16 h 34 = bits.toNat
    ∧ readU32 h 40 = d.toNat := by
  subst hh
  obtain ⟨k, hk⟩ := hb8
  have hk0 : 0 ≤ k := by omega
  have hdiv : bits / 8 = k := by rw [hk]; exact Int.mul_ediv_cancel_left k (by norm_num)
  have hbr' : Int.tdiv (sr * ch * bits) 8 = sr * ch * k := by
    rw [hk, show sr * ch * (8 * k) = 8 * (sr * ch * k) by ring]
    exact Int.mul_tdiv_cancel_left _ (by norm_num)
  have hba' : Int.tdiv (ch * bits) 8 = ch * k := by
    rw [hk, show ch * (8 * k) = 8 * (ch * k) by ring]
    exact Int.mul_tdiv_cancel_left _ (by norm_num)
  refine ⟨(wav_magic d sr ch bits).1, (wav_magic d sr ch bits).2.1,
    (wav_magic d sr ch bits).2.2.1, (wav_magic d sr ch bits).2.2.2,
    ?_, wav_fmtSize d sr ch bits, wav_audioFormat d sr ch bits,
    ?_, ?_, ?_, ?_, ?_, ?_⟩
  · rw [wav_riffSize, toUint32_of_lt (by omega) hd1]
  · rw [wav_channels, toUint16_of_lt hch0 hch1]
  · rw [wav_sampleRate, toUint32_of_lt hsr0 hsr1]
  · rw [wav_byteRate, hbr', hdiv,
      toUint32_of_lt (by positivity) (by rw [hdiv] at hbr; exact hbr)]
  · rw [wav_blockAlign, hba', hdiv,
      toUint16_of_lt (by positivity) (by rw [hdiv] at hba; exact hba)]
  · rw [wav_bitsPerSample, toUint16_of_lt hb0 hb1]
  · rw [wav_dataSize, toUint32_of_lt hd0 (by omega)]

/-- C1 witness: the amended layout theorem instantiated at the spec's
field-correctness example (`sampleRate = 24000`, one 16-bit channel,
four PCM bytes). -/
theorem c1_header_layout_witness :
    readU32 (createWavHeader 4 24000 1 16) 24 = (24000 : Int).toNat
    ∧ readU32 (createWavHeader 4 24000 1 16) 28 =
        ((24000 : Int) * 1 * (16 / 8)).toNat
    ∧ readU16 (createWavHeader 4 24000 1 16) 32 = ((1 : Int) * (16 / 8)).toNat
    ∧ readU32 (createWavHeader 4 24000 1 16) 40 = (4 : Int).toNat := by
  have h := c1_header_layout 4 24000 1 16 (createWavHeader 4 24000 1 16) rfl
    (by decide) (by decide) (by decide) (by decide) (by decide) (by decide)
    (by decide) (by decide) (by decide) (by decide) (by decide)
  exact ⟨h.2.2.2.2.2.2.2.2.1, h.2.2.2.2.2.2.2.2.2.1,
    h.2.2.2.2.2.2.2.2.2.2.1, h.2.2.2.2.2.2.2.2.2.2.2.2⟩

/-! ## Claim C2 -/

/-- C2: the output of the encoder is always the 44-byte header followed
by the PCM bytes verbatim, so its length is `44 + len(pcmBytes)`; an
empty payload gives a 44-byte output whose data-chunk-length field
reads 0 and whose RIFF-chunk-length field reads 36. -/
theorem c2_output_shape (pcm : List Nat) (sr ch bits : Int) :
    (encodeWav pcm sr ch bits).length = 44 + pcm.length
    ∧ (encodeWav pcm sr ch bits).take 44 =
        createWavHeader (pcm.length : Int) sr ch bits
    ∧ (encodeWav pcm sr ch bits).drop 44 = pcm
    ∧ (encodeWav [] sr ch bits).length = 44
    ∧ readU32 (encodeWav [] sr ch bits) 40 = 0
    ∧ readU32 (encodeWav [] sr ch bits) 4 = 36 := by
  have hlen := createWavHeader_length (pcm.length : Int) sr ch bits
  have hlen0 := createWavHeader_length (0 : Int) sr ch bits
  have hnil : encodeWav [] sr ch bits = createWavHeader 0 sr ch bits := by
    simp [encodeWav]
  refine ⟨?_, List.take_left' hlen, List.drop_left' hlen, ?_, ?_, ?_⟩
  · simp [encodeWav, hlen, Nat.add_comm]
  · rw [hnil, hlen0]
  · rw [hnil, wav_dataSize]; decide
  · rw [hnil, wav_riffSize]; decide

/-! ## Claim C3 -/

/-- C3 counterexample: the claim asserts the encoder fails with an
`InvalidParameters` error for zero or negative parameters, but
`createWavHeader` contains no validation at all — at `sampleRate = 0`
and at `channelCount = -1` it still returns the full byte sequence. -/
theorem c3_counterexample :
    (encodeWav [1, 2, 3] 0 1 16).length = 47
    ∧ (encodeWav [1, 2, 3] 24000 (-1) 16).length = 47
    ∧ (encodeWav [1, 2, 3] 24000 1 0).length = 47 := by
  refine ⟨?_, ?_, ?_⟩ <;> decide

/-- C3 (amended): the encoder performs no parameter validation — for
zero or negative `sampleRate`, `channelCount`, or `bitsPerSample` it
does not fail but still produces the `44 + len(pcmBytes)`-byte
output. -/
theorem c3_no_parameter_validation (pcm : List Nat) (sr ch bits : Int)
    (_h : sr ≤ 0 ∨ ch ≤ 0 ∨ bits ≤ 0) :
    (encodeWav pcm sr ch bits).length = 44 + pcm.length := by
  have hlen := createWavHeader_length (pcm.length : Int) sr ch bits
  simp [encodeWav, hlen, Nat.add_comm]

/-- C3 witness: the amended theorem applied at `sampleRate = 0`. -/
theorem c3_no_parameter_validation_witness :
    (encodeWav [1, 2, 3] 0 1 16).length = 44 + [1, 2, 3].length :=
  c3_no_parameter_validation [1, 2, 3] 0 1 16 (Or.inl (by decide))

/-! ## Claim C9 -/

/-- C9: `createWavHeader` is total over all integer parameters and
validates nothing: the header always has its 44 bytes, each 16-bit
field stores its value reduced modulo 2^16 and each 32-bit field
modulo 2^32 (the byte rate being the truncated quotient
`(sampleRate * numChannels * bitsPerSample) tdiv 8` that JS's exact
float division by 8 plus `ToUint32` truncation produces); in
particular `channelCount = 65537` is silently encoded as channel
count 1. -/
theorem c9_total_mod_semantics (d sr ch bits : Int) :
    (createWavHeader d sr ch bits).length = 44
    ∧ readU16 (createWavHeader d sr ch bits) 20 = 1
    ∧ readU16 (createWavHeader d sr ch bits) 22 = (ch % 65536).toNat
    ∧ readU16 (createWavHeader d sr ch bits) 32 =
        (Int.tdiv (ch * bits) 8 % 65536).toNat
    ∧ readU16 (createWavHeader d sr ch bits) 34 = (bits % 65536).toNat
    ∧ readU32 (createWavHeader d sr ch bits) 4 =
        ((36 + d) % 4294967296).toNat
    ∧ readU32 (createWavHeader d sr ch bits) 16 = 16
    ∧ readU32 (createWavHeader d sr ch bits) 24 = (sr % 4294967296).toNat
    ∧ readU32 (createWavHeader d sr ch bits) 28 =
        (Int.tdiv (sr * ch * bits) 8 % 4294967296).toNat
    ∧ readU32 (createWavHeader d sr ch bits) 40 = (d % 4294967296).toNat
    ∧ readU16 (createWavHeader 0 24000 65537 16) 22 = 1 :=
  ⟨createWavHeader_length d sr ch bits, wav_audioFormat d sr ch bits,
   wav_channels d sr ch bits, wav_blockAlign d sr ch bits,
   wav_bitsPerSample d sr ch bits, wav_riffSize d sr ch bits,
   wav_fmtSize d sr ch bits, wav_sampleRate d sr ch bits,
   wav_byteRate d sr ch bits, wav_dataSize d sr ch bits, by decide⟩

/-! ## Claim C6 -/

/-- C6 counterexample: `suggestTags` does not throw on an absent
response text — it returns the default empty tag list
(`Except.ok none` embeds `return []`), contradicting the claim that
all three analysis calls surface a hard error. -/
theorem c6_counterexample :
    suggestTagsOnText none = Except.ok none
    ∧ suggestTagsOnText (some "") = Except.ok none
    ∧ suggestTagsOnText none ≠ Except.error GenError.noResponse := by
  refine ⟨rfl, rfl, ?_⟩
  intro h
  exact Except.noConfusion h

/-- C6 (amended): on an absent or empty response text,
`analyzeJournalForVideo` and `analyzeLifeProfile` throw, while
`suggestTags` instead returns the default empty tag list. -/
theorem c6_empty_response_handling (text : Option String)
    (h : text = none ∨ text = some "") :
    analyzeJournalForVideoOnText text = Except.error GenError.noResponse
    ∧ analyzeLifeProfileOnText text = Except.error GenError.noResponse
    ∧ suggestTagsOnText text = Except.ok none := by
  rcases h with h | h <;> subst h <;>
    exact ⟨rfl, rfl, rfl⟩

/-- C6 witness: the amended theorem applied to an absent response
text. -/
theorem c6_empty_response_handling_witness :
    analyzeJournalForVideoOnText none = Except.error GenError.noResponse
    ∧ analyzeLifeProfileOnText none = Except.error GenError.noResponse
    ∧ suggestTagsOnText none = Except.ok none :=
  c6_empty_response_handling none (Or.inl rfl)

/-! ## Claim C7 -/

/-- C7: the prompt actually sent to the video-synthesis provider is the
original prompt when its length is at most 400 characters, and its
first 400 characters otherwise. -/
theorem c7_prompt_cap (prompt : List Char) :
    (prompt.length ≤ 400 → cleanVeoPrompt prompt = prompt)
    ∧ (prompt.length > 400 → cleanVeoPrompt prompt = prompt.take 400) := by
  constructor
  · intro h
    simp [cleanVeoPrompt, Nat.not_lt.mpr h]
  · intro h
    simp [cleanVeoPrompt, h]

set_option maxRecDepth 4000 in
/-- C7 witness: a short prompt passes unchanged; a 401-character prompt
is cut to its first 400 characters. -/
theorem c7_prompt_cap_witness :
    cleanVeoPrompt ['a', 'b'] = ['a', 'b']
    ∧ cleanVeoPrompt (List.replicate 401 'a') =
        (List.replicate 401 'a').take 400 :=
  ⟨(c7_prompt_cap ['a', 'b']).1 (by decide),
   (c7_prompt_cap (List.replicate 401 'a')).2 (by simp)⟩

/-! ## Claim C8 -/

/-- C8 counterexample: a non-string photo value is not dropped — it is
replaced by an empty-string placeholder, so the `images` list is not
the list of string-valued elements of `photos`. -/
theorem c8_counterexample :
    importImages (some [JVal.jnum 42]) = [""]
    ∧ stringPhotos [JVal.jnum 42] = []
    ∧ importImages (some [JVal.jnum 42]) ≠ stringPhotos [JVal.jnum 42] := by
  refine ⟨rfl, rfl, ?_⟩
  intro h
  have := congrArg List.length h
  simp [importImages, stringPhotos, photoToImage] at this

/-- C8 (amended): import normalization maps the `photos` list
elementwise — a string element is kept at its position, a non-string
element is replaced by the empty string at its position (silently: no
warning is reported) — so the `images` list always has the same length
as `photos`. -/
theorem c8_photos_normalization (ps : List JVal) :
    (importImages (some ps)).length = ps.length
    ∧ (∀ i s, i < ps.length → ps.getD i JVal.jnull = JVal.jstr s →
        (importImages (some ps)).getD i "" = s)
    ∧ (∀ i, i < ps.length → isStringPhoto (ps.getD i JVal.jnull) = false →
        (importImages (some ps)).getD i "" = "") := by
  have hm : importImages (some ps) = ps.map photoToImage := rfl
  refine ⟨by simp [hm], ?_, ?_⟩
  · intro i s hi hs
    rw [hm, List.getD_eq_getElem _ _ (by simpa using hi),
      List.getElem_map, ← List.getD_eq_getElem _ JVal.jnull hi, hs]
    rfl
  · intro i hi hns
    rw [hm, List.getD_eq_getElem _ _ (by simpa using hi),
      List.getElem_map, ← List.getD_eq_getElem _ JVal.jnull hi]
    cases hv : ps.getD i JVal.jnull <;> simp_all [isStringPhoto, photoToImage]

/-- C8 witness: on `photos = ["a", 42]` the string is kept at index 0
and the number becomes an empty string at index 1. -/
theorem c8_photos_normalization_witness :
    (importImages (some [JVal.jstr "a", JVal.jnum 42])).getD 0 "" = "a"
    ∧ (importImages (some [JVal.jstr "a", JVal.jnum 42])).getD 1 "" = "" :=
  ⟨(c8_photos_normalization [JVal.jstr "a", JVal.jnum 42]).2.1 0 "a"
      (by decide) (by decide),
   (c8_photos_normalization [JVal.jstr "a", JVal.jnum 42]).2.2 1
      (by decide) (by decide)⟩

/-! ## Claim C10 -/

/-- C10: toggling removes the id when present (for a duplicate-free
list this is list erasure) and appends it at the end otherwise; the
result of a toggle is again duplicate-free, and toggling the same id
twice from a list not containing it restores the original list. -/
theorem c10_toggleSelection (id : String) (l : List String)
    (hnd : l.Nodup) :
    (id ∈ l → toggleSelection id l = l.erase id)
    ∧ (id ∉ l → toggleSelection id l = l ++ [id])
    ∧ (toggleSelection id l).Nodup
    ∧ (id ∉ l → toggleSelection id (toggleSelection id l) = l) := by
  have herase : l.erase id = l.filter (fun sid => sid ≠ id) := by
    rw [List.Nodup.erase_eq_filter hnd]
    apply List.filter_congr
    intro a _
    by_cases hh : a = id <;> simp [hh]
  have hmem : ∀ (m : List String), toggleSelection id m =
      if id ∈ m then m.filter (fun sid => sid ≠ id) else m ++ [id] := by
    intro m
    unfold toggleSelection
    by_cases h : id ∈ m
    · rw [if_pos (List.elem_iff.mpr h), if_pos h]
    · rw [if_neg (fun hc => h (List.elem_iff.mp hc)), if_neg h]
  refine ⟨?_, ?_, ?_, ?_⟩
  · intro h
    rw [hmem, if_pos h, herase]
  · intro h
    rw [hmem, if_neg h]
  · rw [hmem]
    split
    · exact hnd.filter _
    · simp only [List.nodup_append, List.nodup_cons, List.not_mem_nil,
        not_false_iff, List.nodup_nil, and_true, true_and]
      constructor
      · exact hnd
      · simp_all
  · intro h
    rw [hmem l, if_neg h, hmem (l ++ [id]), if_pos (by simp)]
    rw [List.filter_append]
    have h1 : l.filter (fun sid => sid ≠ id) = l :=
      List.filter_eq_self.mpr (fun a ha => by
        simp only [ne_eq, decide_eq_true_eq]
        intro heq
        exact h (heq ▸ ha))
    have h2 : [id].filter (fun sid => sid ≠ id) = [] := by simp
    rw [h1, h2, List.append_nil]

/-! ## Base64 decoder lemmas (for C4 and C5) -/

theorem sextetOf_eq_none_of_not_alpha {c : Char}
    (h : isB64AlphabetChar c = false) : sextetOf c = none ∧ c ≠ '=' := by
  simp only [isB64AlphabetChar, Bool.or_eq_false_iff, Bool.and_eq_false_iff,
    decide_eq_false_iff_not] at h
  obtain ⟨⟨⟨⟨⟨hA, ha⟩, h0⟩, hp⟩, hs⟩, he⟩ := h
  refine ⟨?_, he⟩
  unfold sextetOf
  rw [if_neg (not_and_or.mpr hA), if_neg (not_and_or.mpr ha),
    if_neg (not_and_or.mpr h0), if_neg hp, if_neg hs]

theorem sextetOf_eq_none_of_ws {c : Char} (h : isB64Ws c = true) :
    sextetOf c = none := by
  simp only [isB64Ws, Bool.or_eq_true, decide_eq_true_eq] at h
  rcases h with ((((h | h) | h) | h) | h) <;> subst h <;> decide

theorem mem_stripPad {c : Char} {d : List Char} (hc : c ∈ d)
    (hne : c ≠ '=') : c ∈ stripPad d := by
  unfold stripPad
  split
  · split
    · next r heq =>
      rw [List.mem_reverse]
      have : c ∈ d.reverse := List.mem_reverse.mpr hc
      rw [heq] at this
      simp only [List.mem_cons] at this
      tauto
    · next r heq =>
      rw [List.mem_reverse]
      have : c ∈ d.reverse := List.mem_reverse.mpr hc
      rw [heq] at this
      simp only [List.mem_cons] at this
      tauto
    · exact hc
  · exact hc

theorem sextetsOf_eq_none_of_mem {c : Char} {l : List Char} (hc : c ∈ l)
    (hnone : sextetOf c = none) : sextetsOf l = none := by
  induction l with
  | nil => cases hc
  | cons a t ih =>
    rcases List.mem_cons.mp hc with h | h
    · subst h
      cases hst : sextetsOf t <;> simp [sextetsOf, hnone, hst]
    · cases hsa : sextetOf a <;> simp [sextetsOf, hsa, ih h]

theorem atobChars_eq_none_of_bad_char {l : List Char} {c : Char}
    (hmem : c ∈ l) (halpha : isB64AlphabetChar c = false)
    (hws : isB64Ws c = false) : atobChars l = none := by
  obtain ⟨hnone, hne⟩ := sextetOf_eq_none_of_not_alpha halpha
  have hc1 : c ∈ l.filter (fun c => !isB64Ws c) :=
    List.mem_filter.mpr ⟨hmem, by simp [hws]⟩
  have hc2 : c ∈ stripPad (l.filter (fun c => !isB64Ws c)) :=
    mem_stripPad hc1 hne
  unfold atobChars
  by_cases hlen : (stripPad (l.filter (fun c => !isB64Ws c))).length % 4 = 1
  · rw [if_pos hlen]
  · rw [if_neg hlen, sextetsOf_eq_none_of_mem hc2 hnone]

theorem atobChars_eq_none_of_len1 {l : List Char}
    (hall : ∀ c ∈ l, (sextetOf c).isSome) (hlen : l.length % 4 = 1) :
    atobChars l = none := by
  have hfilter : l.filter (fun c => !isB64Ws c) = l := by
    apply List.filter_eq_self.mpr
    intro a ha
    cases hwa : isB64Ws a
    · simp
    · have := hall a ha
      rw [sextetOf_eq_none_of_ws hwa] at this
      simp at this
  have hstrip : stripPad (l.filter (fun c => !isB64Ws c)) = l := by
    rw [hfilter]
    unfold stripPad
    rw [if_neg (by omega)]
  unfold atobChars
  rw [hstrip, if_pos hlen]

theorem b64char_sextet : ∀ n, n < 64 → sextetOf (b64char n) = some n := by
  decide

theorem b64char_ne_pad : ∀ n, n < 64 → b64char n ≠ '=' := by decide

theorem b64char_not_ws (n : Nat) : isB64Ws (b64char n) = false := by
  by_cases h : n < 64
  · exact (by decide : ∀ m, m < 64 → isB64Ws (b64char m) = false) n h
  · unfold b64char
    rw [List.getD_eq_default]
    · decide
    · have : b64alphabet.length = 64 := by decide
      omega

theorem encode_mem {c : Char} :
    ∀ {b : List Nat}, c ∈ encodeBase64Std b →
      (∃ n, c = b64char n) ∨ c = '=' := by
  intro b
  induction b using encodeBase64Std.induct with
  | case1 => intro h; cases h
  | case2 x =>
    intro h
    simp only [encodeBase64Std, List.mem_cons, List.not_mem_nil,
      or_false] at h
    rcases h with h | h | h | h <;> subst h
    · exact Or.inl ⟨_, rfl⟩
    · exact Or.inl ⟨_, rfl⟩
    · exact Or.inr rfl
    · exact Or.inr rfl
  | case3 x y =>
    intro h
    simp only [encodeBase64Std, List.mem_cons, List.not_mem_nil,
      or_false] at h
    rcases h with h | h | h | h <;> subst h
    · exact Or.inl ⟨_, rfl⟩
    · exact Or.inl ⟨_, rfl⟩
    · exact Or.inl ⟨_, rfl⟩
    · exact Or.inr rfl
  | case4 x y z rest ih =>
    intro h
    simp only [encodeBase64Std, List.mem_cons] at h
    rcases h with h | h | h | h | h
    · exact Or.inl ⟨_, h⟩
    · exact Or.inl ⟨_, h⟩
    · exact Or.inl ⟨_, h⟩
    · exact Or.inl ⟨_, h⟩
    · exact ih h

theorem encode_filter_ws (b : List Nat) :
    (encodeBase64Std b).filter (fun c => !isB64Ws c) = encodeBase64Std b := by
  apply List.filter_eq_self.mpr
  intro a ha
  rcases encode_mem ha with ⟨n, rfl⟩ | rfl
  · simp [b64char_not_ws n]
  · decide

theorem encode_length_mod (b : List Nat) :
    (encodeBase64Std b).length % 4 = 0 := by
  induction b using encodeBase64Std.induct with
  | case1 => rfl
  | case2 x => simp [encodeBase64Std]
  | case3 x y => simp [encodeBase64Std]
  | case4 x y z rest ih =>
    simp only [encodeBase64Std, List.length_cons]
    omega

theorem encode_ne_nil (b : List Nat) (hb : b ≠ []) :
    encodeBase64Std b ≠ [] := by
  match b with
  | [] => exact absurd rfl hb
  | [x] => simp [encodeBase64Std]
  | [x, y] => simp [encodeBase64Std]
  | x :: y :: z :: rest => simp [encodeBase64Std]

theorem stripPad_pad2 (l : List Char) (h : (l.length + 2) % 4 = 0) :
    stripPad (l ++ ['=', '=']) = l := by
  have hrev : (l ++ ['=', '=']).reverse = '=' :: '=' :: l.reverse := by simp
  unfold stripPad
  rw [if_pos (by simp; omega), hrev]
  simp

theorem stripPad_pad1 (l : List Char) (c : Char) (hc : c ≠ '=')
    (h : (l.length + 2) % 4 = 0) :
    stripPad (l ++ [c, '=']) = l ++ [c] := by
  have hrev : (l ++ [c, '=']).reverse = '=' :: c :: l.reverse := by simp
  unfold stripPad
  rw [if_pos (by simp; omega), hrev]
  split
  · rename_i r heq
    exfalso
    injection heq with he1 hrest
    injection hrest with he2 hr
    exact hc he2
  · rename_i r hpat heq
    injection heq with he1 hr
    rw [← hr]
    simp
  · rename_i x h1 h2
    exfalso
    exact h2 (c :: l.reverse) rfl

theorem stripPad_nopad (l : List Char) (c : Char) (hc : c ≠ '=')
    (h : (l.length + 1) % 4 = 0) :
    stripPad (l ++ [c]) = l ++ [c] := by
  have hrev : (l ++ [c]).reverse = c :: l.reverse := by simp
  unfold stripPad
  rw [if_pos (by simp; omega), hrev]
  split
  · rename_i r heq
    exfalso
    injection heq with he1 hrest
    exact hc he1
  · rename_i r hpat heq
    exfalso
    injection heq with he1 hr
    exact hc he1
  · rfl

theorem stripPad_append_left (pre d : List Char) (hpre : pre.length % 4 = 0)
    (hd : d.length % 4 = 0) (hne : d ≠ []) :
    stripPad (pre ++ d) = pre ++ stripPad d := by
  obtain ⟨e1, t, ht⟩ : ∃ e1 t, d.reverse = e1 :: t := by
    cases hrev : d.reverse with
    | nil =>
      exfalso
      apply hne
      simpa using congrArg List.reverse hrev
    | cons a t => exact ⟨a, t, rfl⟩
  obtain ⟨e2, t2, rfl⟩ : ∃ e2 t2, t = e2 :: t2 := by
    cases t with
    | nil =>
      exfalso
      have := congrArg List.length ht
      simp at this
      omega
    | cons a t2 => exact ⟨a, t2, rfl⟩
  have hrev2 : (pre ++ d).reverse = e1 :: e2 :: (t2 ++ pre.reverse) := by
    rw [List.reverse_append, ht]
    simp
  have hlen : (pre ++ d).length % 4 = 0 := by
    simp only [List.length_append]
    omega
  unfold stripPad
  rw [if_pos hlen, if_pos hd, hrev2, ht]
  split
  · rename_i r heq
    injection heq with he1 hrest
    injection hrest with he2 hr
    subst he1
    subst he2
    rw [← hr]
    simp
  · rename_i r hpat heq
    injection heq with he1 hr
    subst he1
    have he2 : e2 ≠ '=' := by
      intro hcontra
      exact hpat (t2 ++ pre.reverse) (by rw [← hr, hcontra])
    rw [← hr]
    split
    · rename_i r' heq'
      exfalso
      injection heq' with _ hrest'
      injection hrest' with he2' _
      exact he2 he2'
    · rename_i r' hpat' heq'
      injection heq' with _ hr'
      rw [← hr']
      simp
    · rename_i x h1' h2'
      exfalso
      exact h2' (e2 :: t2) rfl
  · rename_i x h1 h2
    have he1 : e1 ≠ '=' := by
      intro hcontra
      exact h2 (e2 :: (t2 ++ pre.reverse)) (by rw [hcontra])
    split
    · rename_i r' heq'
      exfalso
      injection heq' with he1' _
      exact he1 he1'
    · rename_i r' hpat' heq'
      exfalso
      injection heq' with he1' _
      exact he1 he1'
    · rfl

theorem stripPad_encode (b : List Nat) :
    stripPad (encodeBase64Std b) = (encSextets b).map b64char := by
  induction b using encodeBase64Std.induct with
  | case1 => decide
  | case2 x =>
    have hshape : encodeBase64Std [x] =
        [b64char (x / 4), b64char (x % 4 * 16)] ++ ['=', '='] := rfl
    rw [hshape, stripPad_pad2 _ (by simp)]
    simp [encSextets]
  | case3 x y =>
    have hshape : encodeBase64Std [x, y] =
        [b64char (x / 4), b64char (x % 4 * 16 + y / 16)]
          ++ [b64char (y % 16 * 4), '='] := rfl
    rw [hshape, stripPad_pad1 _ _ (b64char_ne_pad _ (by omega)) (by simp)]
    simp [encSextets]
  | case4 x y z rest ih =>
    cases rest with
    | nil =>
      have hshape : encodeBase64Std [x, y, z] =
          [b64char (x / 4), b64char (x % 4 * 16 + y / 16),
            b64char (y % 16 * 4 + z / 64)] ++ [b64char (z % 64)] := rfl
      rw [hshape, stripPad_nopad _ _ (b64char_ne_pad _ (by omega)) (by simp)]
      simp [encSextets]
    | cons r1 rt =>
      have hshape : encodeBase64Std (x :: y :: z :: r1 :: rt) =
          [b64char (x / 4), b64char (x % 4 * 16 + y / 16),
            b64char (y % 16 * 4 + z / 64), b64char (z % 64)]
            ++ encodeBase64Std (r1 :: rt) := rfl
      rw [hshape,
        stripPad_append_left _ _ (by simp) (encode_length_mod _)
          (encode_ne_nil _ (by simp)), ih]
      simp [encSextets]

theorem sextetsOf_map_b64char (vs : List Nat) (h : ∀ v ∈ vs, v < 64) :
    sextetsOf (vs.map b64char) = some vs := by
  induction vs with
  | nil => rfl
  | cons v t ih =>
    simp only [List.map_cons, sextetsOf]
    rw [b64char_sextet v (h v (by simp)), ih (fun w hw => h w (by simp [hw]))]

theorem encSextets_lt (b : List Nat) :
    (∀ x ∈ b, x < 256) → ∀ v ∈ encSextets b, v < 64 := by
  induction b using encSextets.induct with
  | case1 => intro _ v hv; cases hv
  | case2 x =>
    intro hb v hv
    have hx := hb x (by simp)
    simp only [encSextets, List.mem_cons, List.not_mem_nil, or_false] at hv
    omega
  | case3 x y =>
    intro hb v hv
    have hx := hb x (by simp)
    have hy := hb y (by simp)
    simp only [encSextets, List.mem_cons, List.not_mem_nil, or_false] at hv
    omega
  | case4 x y z rest ih =>
    intro hb v hv
    have hx := hb x (by simp)
    have hy := hb y (by simp)
    have hz := hb z (by simp)
    simp only [encSextets, List.mem_cons] at hv
    rcases hv with h | h | h | h | h
    · omega
    · omega
    · omega
    · omega
    · exact ih (fun w hw => hb w (by simp [hw])) v h

theorem encSextets_len_mod (b : List Nat) :
    (encSextets b).length % 4 ≠ 1 := by
  induction b using encSextets.induct with
  | case1 => simp [encSextets]
  | case2 x => simp [encSextets]
  | case3 x y => simp [encSextets]
  | case4 x y z rest ih =>
    simp only [encSextets, List.length_cons]
    omega

theorem decodeGroups_encSextets (b : List Nat) :
    (∀ x ∈ b, x < 256) → decodeGroups (encSextets b) = some b := by
  induction b using encSextets.induct with
  | case1 => intro _; rfl
  | case2 x =>
    intro hb
    have hx := hb x (by simp)
    simp only [encSextets, decodeGroups, Option.some.injEq, List.cons.injEq,
      and_true]
    omega
  | case3 x y =>
    intro hb
    have hx := hb x (by simp)
    have hy := hb y (by simp)
    simp only [encSextets, decodeGroups, Option.some.injEq, List.cons.injEq,
      and_true]
    omega
  | case4 x y z rest ih =>
    intro hb
    have hx := hb x (by simp)
    have hy := hb y (by simp)
    have hz := hb z (by simp)
    have hrec := ih (fun w hw => hb w (by simp [hw]))
    simp only [encSextets, decodeGroups, hrec, Option.some.injEq,
      List.cons.injEq]
    exact ⟨by omega, by omega, by omega, trivial⟩

/-! ## Claim C4 -/

/-- C4 counterexample: the decoder does not fail on every character
outside `[A-Za-z0-9+/=]` — ASCII whitespace is silently stripped
(`atob(" ")` succeeds with an empty result), and input with missing
padding (length not a multiple of 4) is accepted as well. -/
theorem c4_counterexample :
    base64ToUint8Array " " = some []
    ∧ isB64AlphabetChar ' ' = false
    ∧ base64ToUint8Array "AQIDBA" = some [1, 2, 3, 4] := by
  refine ⟨by decide, by decide, by decide⟩

/-- C4 (amended): the decoder fails on any character that is outside
`[A-Za-z0-9+/=]` and is not ASCII whitespace (whitespace is silently
stripped instead of rejected), and fails on alphabet-only input whose
length is ≡ 1 (mod 4); missing `=` padding by itself is accepted. -/
theorem c4_invalid_input_rejected :
    (∀ (s : String) (c : Char), c ∈ s.toList →
      isB64AlphabetChar c = false → isB64Ws c = false →
      base64ToUint8Array s = none)
    ∧ (∀ (s : String), (∀ c ∈ s.toList, (sextetOf c).isSome) →
      s.toList.length % 4 = 1 → base64ToUint8Array s = none) := by
  constructor
  · intro s c hmem halpha hws
    exact atobChars_eq_none_of_bad_char hmem halpha hws
  · intro s hall hlen
    exact atobChars_eq_none_of_len1 hall hlen

/-- C4 witness: a non-whitespace character `&` outside the alphabet is
rejected, and alphabet-only input of length 5 (≡ 1 mod 4) is
rejected. -/
theorem c4_invalid_input_rejected_witness :
    base64ToUint8Array "A&==" = none ∧ base64ToUint8Array "AAAAA" = none :=
  ⟨c4_invalid_input_rejected.1 "A&==" '&' (by decide) (by decide) (by decide),
   c4_invalid_input_rejected.2 "AAAAA" (by decide) (by decide)⟩

/-! ## Claim C5 -/

/-- C5: decoding the standard (RFC 4648) base64 encoding of any byte
sequence with the source's decoder yields exactly that byte sequence —
the decoder is a left inverse of the standard reference encoder. -/
theorem c5_decode_encode_roundtrip (b : List Nat) (hb : ∀ x ∈ b, x < 256) :
    base64ToUint8Array (String.mk (encodeBase64Std b)) = some b := by
  show atobChars (encodeBase64Std b) = some b
  unfold atobChars
  rw [encode_filter_ws b, stripPad_encode b]
  rw [if_neg (by
    rw [List.length_map]
    exact encSextets_len_mod b)]
  rw [sextetsOf_map_b64char _ (encSextets_lt b hb)]
  exact decodeGroups_encSextets b hb

/-- C5 witness: the round trip evaluated on the spec's four-byte
fixture. -/
theorem c5_decode_encode_roundtrip_witness :
    base64ToUint8Array (String.mk (encodeBase64Std [1, 2, 3, 4])) =
      some [1, 2, 3, 4] :=
  c5_decode_encode_roundtrip [1, 2, 3, 4] (by decide)

/-- C10 witness: toggling a fresh id appends it, toggling it again
restores the original duplicate-free list. -/
theorem c10_toggleSelection_witness :
    toggleSelection "x" ["a", "b"] = ["a", "b"] ++ ["x"]
    ∧ toggleSelection "x" (toggleSelection "x" ["a", "b"]) = ["a", "b"] :=
  ⟨(c10_toggleSelection "x" ["a", "b"] (by decide)).2.1 (by decide),
   (c10_toggleSelection "x" ["a", "b"] (by decide)).2.2.2 (by decide)⟩

end Lumina
